import Mathlib

namespace Capture

variable {F : Type}

/-!
Shallow embedding of the Capture repository (src/VidUtils.py).

Frames are opaque values of a type `F`.  The three classes of
`VidUtils.py` are modelled as state records with one Lean function per
Python method; the rolling frame history (`collections.deque` with
`maxlen`) is modelled by `rollPush` (append at the right, evict at the
left, as in `ShortClipWriter.update`) and `rollPushL` (append at the
left, evict at the right, as in `KeyClipWriter.update`).
-/

/-- One `deque(maxlen = C)` append at the right end (`self.frames.append(frame)`
in `ShortClipWriter.update`): if the deque is full the oldest (leftmost)
element is evicted. -/
def rollPush (C : Nat) (h : List F) (x : F) : List F :=
  if h.length < C then h ++ [x] else (h ++ [x]).drop 1

/-- One `deque(maxlen = C)` append at the left end (`self.frames.appendleft(frame)`
in `KeyClipWriter.update`): if the deque is full the oldest (rightmost)
element is evicted. -/
def rollPushL (C : Nat) (h : List F) (x : F) : List F :=
  if h.length < C then x :: h else (x :: h).dropLast

/-- Push a whole list of frames, one at a time, at the right end. -/
def pushAll (C : Nat) (h : List F) (xs : List F) : List F :=
  xs.foldl (rollPush C) h

/-- Push a whole list of frames, one at a time, at the left end. -/
def pushAllL (C : Nat) (h : List F) (xs : List F) : List F :=
  xs.foldl (rollPushL C) h

/-- The last `C` elements of a list. -/
def lastN (C : Nat) (l : List F) : List F :=
  l.drop (l.length - C)

/-!
`KeyClipWriter` (the continuous recorder).

The state mirrors the Python fields: `frames` is the rolling deque
(index 0 = newest, because `update` uses `appendleft`), `Q` is the write
queue with its front as the next frame the writer thread would take, and
`written` records the frames the sink has received so far.  `sinkOpen`
tracks whether the `cv2.VideoWriter` is open and `fileExists` whether the
output path is present on disk.  The writer thread is modelled by an
explicit `wstep` transition (one iteration of `KeyClipWriter.write`),
which runs interleaved with `update` calls in a run.
-/

structure KCW (F : Type) where
  bufSize : Nat
  frames : List F
  Q : List F
  written : List F
  recording : Bool
  sinkOpen : Bool
  fileExists : Bool
  outputPath : Option String
  deriving Repr, DecidableEq

/-- `KeyClipWriter.__init__`: empty buffer, no queue, not recording. -/
def KCW.init (C : Nat) : KCW F :=
  { bufSize := C, frames := [], Q := [], written := [],
    recording := false, sinkOpen := false, fileExists := false,
    outputPath := none }

/-- `KeyClipWriter.update`: push the frame at the left of the rolling
deque and, if recording, append it to the write queue. -/
def KCW.update (s : KCW F) (f : F) : KCW F :=
  let s1 := { s with frames := rollPushL s.bufSize s.frames f }
  if s1.recording then { s1 with Q := s1.Q ++ [f] } else s1

/-- `KeyClipWriter.start`: the method sets `self.recording = True` and
`self.outputPath` first, then opens the `cv2.VideoWriter` with the
dimensions of `self.frames[0]` — which raises an index error when the
rolling deque is empty, leaving those two mutations behind.  On success
the file is created, the sink opened, and a fresh queue is seeded with
the whole rolling deque oldest-first (the deque is newest-first, so the
seeding loop enumerates it in reverse).  The Bool reports success. -/
def KCW.start (s : KCW F) (path : String) : KCW F × Bool :=
  let s1 := { s with recording := true, outputPath := some path }
  match s1.frames with
  | [] => (s1, false)
  | _ :: _ =>
      ({ s1 with sinkOpen := true, fileExists := true,
                 Q := s1.frames.reverse }, true)

/-- One iteration of the `KeyClipWriter.write` thread loop: if the
recording flag is down the thread exits; otherwise, if the queue is
non-empty, one frame is dequeued and written to the sink; an empty
queue only sleeps. -/
def KCW.wstep (s : KCW F) : KCW F :=
  if s.recording then
    match s.Q with
    | [] => s
    | f :: rest => { s with Q := rest, written := s.written ++ [f] }
  else s

/-- `KeyClipWriter.flush`: synchronously write out everything left in
the queue. -/
def KCW.flush (s : KCW F) : KCW F :=
  { s with written := s.written ++ s.Q, Q := [] }

/-- `KeyClipWriter.finish`: drop the recording flag (the joined writer
thread exits at its next flag check), flush the remaining queue, and
release the writer. -/
def KCW.finish (s : KCW F) : KCW F :=
  let s1 := { s with recording := false }
  let s2 := KCW.flush s1
  { s2 with sinkOpen := false }

/-- `KeyClipWriter.terminate`: drop the recording flag, join the thread,
release the writer without flushing, and remove the output file. -/
def KCW.terminate (s : KCW F) : KCW F :=
  { s with recording := false, sinkOpen := false, fileExists := false }

/-- An event during a continuous-recorder run: either the capture loop
hands a frame to `update`, or the writer thread gets scheduled for one
loop iteration. -/
inductive KEvent (F : Type) where
  | upd (f : F)
  | wstep
  deriving Repr, DecidableEq

def KCW.applyEvent (s : KCW F) : KEvent F → KCW F
  | .upd f => s.update f
  | .wstep => s.wstep

def KCW.applyEvents (s : KCW F) (es : List (KEvent F)) : KCW F :=
  es.foldl KCW.applyEvent s

/-- The frames handed to `update` during a run, in order. -/
def KEvent.updFrames : List (KEvent F) → List F
  | [] => []
  | .upd f :: es => f :: updFrames es
  | .wstep :: es => updFrames es

/-- A fresh recorder fed the pre-roll `P` through `update` while idle,
then `start`. -/
def KCW.runStart (C : Nat) (P : List F) (path : String) : KCW F × Bool :=
  (KCW.applyEvents (KCW.init C) (P.map KEvent.upd)).start path

/-!
`ShortClipWriter` (the bounded recorder).

The Python object also stores the output path, codec, frame rate and
color flag; they are carried unchanged from `start` to `write` and play
no role in the control flow, so the model keeps only the behavioural
fields.  `write` runs in a one-shot thread spawned at `finish`; it is
deterministic in the queue contents, so `finish` returns its outcome
directly: `none` when the session was flagged too long (no thread would
produce output), `some (Except.error ())` when the queue copy is empty
and `framelist[0]` raises an index error before the `cv2.VideoWriter`
is constructed (the sink is never opened), and `some (Except.ok l)`
when the thread opens the sink and writes the frames `l` in order.
-/

structure SCW (F : Type) where
  bufSize : Nat
  recMaxFrames : Nat
  frames : List F
  Q : List F
  recording : Bool
  toolong : Bool
  deriving Repr, DecidableEq

/-- `ShortClipWriter.__init__`. -/
def SCW.init (C L : Nat) : SCW F :=
  { bufSize := C, recMaxFrames := L, frames := [], Q := [],
    recording := false, toolong := false }

/-- `ShortClipWriter.update`: push the frame at the right of the
rolling deque; while recording, flag the session too long if the
pending queue already holds more than `rec_max_frames` frames and drop
the frame, otherwise append it. -/
def SCW.update (s : SCW F) (f : F) : SCW F :=
  let s1 := { s with frames := rollPush s.bufSize s.frames f }
  if s1.recording then
    if s1.recMaxFrames < s1.Q.length then { s1 with toolong := true }
    else { s1 with Q := s1.Q ++ [f] }
  else s1

/-- `ShortClipWriter.start`: raise the recording flag, clear the
too-long flag, and seed a fresh queue with the whole rolling deque
(already oldest-first for this recorder). -/
def SCW.start (s : SCW F) : SCW F :=
  { s with recording := true, toolong := false, Q := s.frames }

/-- The write loop of `ShortClipWriter.write`: pop the copied queue
from the left and hand each frame to the sink, accumulating the
sequence the sink receives. -/
def SCW.drain : List F → List F → List F
  | acc, [] => acc
  | acc, f :: rest => SCW.drain (acc ++ [f]) rest

/-- `ShortClipWriter.write` as a function of the queue copy it locks
in: an empty copy raises an index error at `framelist[0]` (evaluated
for the sink dimensions before the `cv2.VideoWriter` is constructed,
so the sink is never opened); otherwise the sink is opened, the loop
writes every frame in order, and the writer is released. -/
def SCW.write (q : List F) : Except Unit (List F) :=
  match q with
  | [] => Except.error ()
  | _ :: _ => Except.ok (SCW.drain [] q)

/-- `ShortClipWriter.finish`: drop the recording flag; unless the
session was flagged too long, spawn the one-shot writer thread, whose
outcome is returned alongside the new state. -/
def SCW.finish (s : SCW F) : SCW F × Option (Except Unit (List F)) :=
  let s1 := { s with recording := false }
  if s1.toolong then (s1, none)
  else (s1, some (SCW.write s1.Q))

def SCW.applyUpdates (s : SCW F) (fs : List F) : SCW F :=
  fs.foldl SCW.update s

/-- A fresh bounded recorder fed the pre-roll `P` through `update`
while idle, then `start`. -/
def SCW.runStart (C L : Nat) (P : List F) : SCW F :=
  ((SCW.init C L).applyUpdates P).start

/-- A call on a bounded recorder that can affect its pending queue:
an update with a frame, or a (re)start. -/
inductive SEvent (F : Type) where
  | upd (f : F)
  | strt
  deriving Repr, DecidableEq

def SCW.applySEvent (s : SCW F) : SEvent F → SCW F
  | .upd f => s.update f
  | .strt => s.start

def SCW.applySEvents (s : SCW F) (es : List (SEvent F)) : SCW F :=
  es.foldl SCW.applySEvent s

/-!
`VideoStream` (the capture decoupler).

The capture source is modelled as the list of results its successive
`read()` calls produce, each `some f` (a grabbed frame) or `none` (the
tuple `(False, None)` of a failed read, whose second component is what
the code enqueues).  One list element is consumed per source read; a
read past the end also yields `none`.
-/

structure VS (F : Type) where
  src : List (Option F)
  frame : Option F
  Q : List (Option F)
  stopped : Bool
  deriving Repr, DecidableEq

/-- One `self.stream.read()` call: its result and the rest of the
source. -/
def camRead : List (Option F) → Option F × List (Option F)
  | [] => (none, [])
  | r :: rs => (r, rs)

/-- `VideoStream.__init__`: open the stream, consume one priming read
into `self.grabbed, self.frame`, and create the empty hand-off
queue.  The primed frame is stored but never enqueued. -/
def VS.init (src : List (Option F)) : VS F :=
  { src := (camRead src).2, frame := (camRead src).1, Q := [],
    stopped := false }

/-- One iteration of the `VideoStream.update` loop: exit if stopped,
else enqueue `self.stream.read()[1]` — the frame component of the next
result, enqueued unconditionally, `None` included (the `grabbed` check
is commented out in the source). -/
def VS.cycle (s : VS F) : VS F :=
  if s.stopped then s
  else
    { s with src := (camRead s.src).2, Q := s.Q ++ [(camRead s.src).1] }

def VS.cycles (s : VS F) : Nat → VS F
  | 0 => s
  | n + 1 => (s.cycle).cycles n

/-- `VideoStream.read`: spin until the queue is non-empty, then return
its oldest element; `none` models a call that blocks forever. -/
def VS.readQ (s : VS F) : Option (Option F × VS F) :=
  match s.Q with
  | [] => none
  | r :: rest => some (r, { s with Q := rest })

theorem lastN_of_le {C : Nat} {l : List F} (h : l.length ≤ C) : lastN C l = l := by
  unfold lastN
  have : l.length - C = 0 := by omega
  simp [this]

theorem length_lastN (C : Nat) (l : List F) : (lastN C l).length ≤ C := by
  unfold lastN
  simp only [List.length_drop]
  omega

theorem lastN_append_lastN (C : Nat) (l m : List F) :
    lastN C (lastN C l ++ m) = lastN C (l ++ m) := by
  by_cases hl : l.length ≤ C
  · rw [lastN_of_le hl]
  · unfold lastN
    simp only [List.length_append, List.length_drop]
    have h1 : l.length - (l.length - C) = C := by omega
    rw [h1]
    have h2 : C + m.length - C = m.length := by omega
    have h3 : l.length + m.length - C = (l.length - C) + m.length := by omega
    rw [h2, h3, ← List.drop_drop,
        List.drop_append_of_le_length (show l.length - C ≤ l.length by omega)]

theorem rollPush_eq_lastN {C : Nat} {h : List F} (hh : h.length ≤ C) (x : F) :
    rollPush C h x = lastN C (h ++ [x]) := by
  unfold rollPush lastN
  by_cases hlt : h.length < C
  · have : h.length + 1 - C = 0 := by omega
    simp [hlt, this]
  · have hC : h.length = C := by omega
    simp only [hlt, if_false, List.length_append, List.length_singleton]
    have : h.length + 1 - C = 1 := by omega
    rw [this]

theorem length_rollPush {C : Nat} {h : List F} (hh : h.length ≤ C) (x : F) :
    (rollPush C h x).length ≤ C := by
  rw [rollPush_eq_lastN hh]
  exact length_lastN C _

theorem pushAll_eq_lastN {C : Nat} (xs : List F) :
    ∀ {h : List F}, h.length ≤ C → pushAll C h xs = lastN C (h ++ xs) := by
  induction xs with
  | nil =>
    intro h hh
    simpa [pushAll] using (lastN_of_le hh).symm
  | cons x xs ih =>
    intro h hh
    have step : pushAll C h (x :: xs) = pushAll C (rollPush C h x) xs := rfl
    rw [step, ih (length_rollPush hh x), rollPush_eq_lastN hh,
        lastN_append_lastN]
    simp

theorem length_pushAll {C : Nat} {h : List F} (hh : h.length ≤ C) (xs : List F) :
    (pushAll C h xs).length ≤ C := by
  rw [pushAll_eq_lastN xs hh]
  exact length_lastN C _

theorem pushAll_nil_of_le {C : Nat} {xs : List F} (h : xs.length ≤ C) :
    pushAll C [] xs = xs := by
  rw [pushAll_eq_lastN xs (by simp)]
  simpa using lastN_of_le h

theorem rollPushL_reverse {C : Nat} {h : List F} (x : F) :
    (rollPushL C h x).reverse = rollPush C h.reverse x := by
  unfold rollPushL rollPush
  by_cases hlt : h.length < C
  · simp [hlt]
  · rcases List.eq_nil_or_concat h with rfl | ⟨h2, a, rfl⟩
    · have hC0 : C = 0 := by simp at hlt; omega
      simp [hC0]
    · simp only [List.concat_eq_append] at hlt ⊢
      have hltr : ¬ (h2 ++ [a]).reverse.length < C := by simpa using hlt
      simp only [hlt, hltr, if_false]
      have hx : (x :: (h2 ++ [a])) = (x :: h2) ++ [a] := by simp
      rw [hx, List.dropLast_concat]
      simp

theorem length_rollPushL {C : Nat} {h : List F} (hh : h.length ≤ C) (x : F) :
    (rollPushL C h x).length ≤ C := by
  have := length_rollPush (h := h.reverse) (by simpa using hh) x
  rw [← rollPushL_reverse x] at this
  simpa using this

theorem pushAllL_reverse {C : Nat} (xs : List F) :
    ∀ {h : List F}, h.length ≤ C →
      (pushAllL C h xs).reverse = pushAll C h.reverse xs := by
  induction xs with
  | nil => intro h hh; rfl
  | cons x xs ih =>
    intro h hh
    have stepL : pushAllL C h (x :: xs) = pushAllL C (rollPushL C h x) xs := rfl
    have stepR : pushAll C h.reverse (x :: xs)
        = pushAll C (rollPush C h.reverse x) xs := rfl
    rw [stepL, stepR, ih (length_rollPushL hh x), rollPushL_reverse x]

theorem pushAllL_nil_reverse_of_le {C : Nat} {xs : List F} (h : xs.length ≤ C) :
    (pushAllL C [] xs).reverse = xs := by
  rw [pushAllL_reverse xs (by simp)]
  simpa using pushAll_nil_of_le h

theorem KCW_idle_updates (C : Nat) (P : List F) :
    KCW.applyEvents (KCW.init C) (P.map KEvent.upd) =
      { KCW.init C with frames := pushAllL C [] P } := by
  suffices h : ∀ (P : List F) (s : KCW F), s.recording = false →
      KCW.applyEvents s (P.map KEvent.upd) =
        { s with frames := pushAllL s.bufSize s.frames P } by
    exact h P (KCW.init C) rfl
  intro P
  induction P with
  | nil => intro s hs; simp [KCW.applyEvents, pushAllL]
  | cons p P ih =>
    intro s hs
    have h1 : KCW.applyEvents s ((p :: P).map KEvent.upd) =
        KCW.applyEvents (s.update p) (P.map KEvent.upd) := rfl
    have h2 : s.update p = { s with frames := rollPushL s.bufSize s.frames p } := by
      simp [KCW.update, hs]
    rw [h1, h2, ih _ (by simp [hs])]
    rfl

/-- Invariant of the recording phase: as long as the recording flag is
up, every interleaving of updates and writer steps conserves
written ++ queue, extending it by exactly the updated frames. -/
theorem KCW_recording_invariant (es : List (KEvent F)) :
    ∀ (s : KCW F), s.recording = true →
      (KCW.applyEvents s es).written ++ (KCW.applyEvents s es).Q
          = s.written ++ s.Q ++ KEvent.updFrames es
        ∧ (KCW.applyEvents s es).recording = true
        ∧ (KCW.applyEvents s es).sinkOpen = s.sinkOpen
        ∧ (KCW.applyEvents s es).fileExists = s.fileExists
        ∧ (KCW.applyEvents s es).written.length ≥ s.written.length := by
  induction es with
  | nil => intro s hs; simp [KCW.applyEvents, KEvent.updFrames, hs]
  | cons e es ih =>
    intro s hs
    have h1 : KCW.applyEvents s (e :: es) =
        KCW.applyEvents (s.applyEvent e) es := rfl
    cases e with
    | upd f =>
      have h2 : s.applyEvent (.upd f) =
          { s with frames := rollPushL s.bufSize s.frames f, Q := s.Q ++ [f] } := by
        simp [KCW.applyEvent, KCW.update, hs]
      have ih2 := ih ({ s with frames := rollPushL s.bufSize s.frames f,
                               Q := s.Q ++ [f] }) (by simp [hs])
      rw [h1, h2]
      refine ⟨?_, ih2.2.1, ih2.2.2.1, ih2.2.2.2.1, ih2.2.2.2.2⟩
      rw [ih2.1]
      simp [KEvent.updFrames]
    | wstep =>
      cases hq : s.Q with
      | nil =>
        have h2 : s.applyEvent KEvent.wstep = s := by
          simp [KCW.applyEvent, KCW.wstep, hs, hq]
        rw [h1, h2]
        simpa [KEvent.updFrames, hq] using ih s hs
      | cons f rest =>
        have h2 : s.applyEvent KEvent.wstep =
            { s with Q := rest, written := s.written ++ [f] } := by
          simp [KCW.applyEvent, KCW.wstep, hs, hq]
        have ih2 := ih ({ s with Q := rest, written := s.written ++ [f] })
          (by simp [hs])
        rw [h1, h2]
        refine ⟨?_, ih2.2.1, ih2.2.2.1, ih2.2.2.2.1, ?_⟩
        · rw [ih2.1]
          simp [hq, KEvent.updFrames]
        · have := ih2.2.2.2.2
          simp only [List.length_append, List.length_singleton] at this
          omega

/-- After `finish`, any further events leave written, queue and flags
untouched except the rolling deque (updates while not recording only
feed the history; writer steps are no-ops once the flag is down). -/
theorem KCW_idle_events (es : List (KEvent F)) :
    ∀ (s : KCW F), s.recording = false →
      (KCW.applyEvents s es).written = s.written
        ∧ (KCW.applyEvents s es).Q = s.Q
        ∧ (KCW.applyEvents s es).recording = false
        ∧ (KCW.applyEvents s es).sinkOpen = s.sinkOpen := by
  induction es with
  | nil => intro s hs; simp [KCW.applyEvents, hs]
  | cons e es ih =>
    intro s hs
    have h1 : KCW.applyEvents s (e :: es) =
        KCW.applyEvents (s.applyEvent e) es := rfl
    cases e with
    | upd f =>
      have h2 : s.applyEvent (.upd f) =
          { s with frames := rollPushL s.bufSize s.frames f } := by
        simp [KCW.applyEvent, KCW.update, hs]
      rw [h1, h2]
      exact ih _ (by simp [hs])
    | wstep =>
      have h2 : s.applyEvent KEvent.wstep = s := by
        simp [KCW.applyEvent, KCW.wstep, hs]
      rw [h1, h2]
      exact ih s hs

theorem KCW_start_of_ne (s : KCW F) (path : String) (h : s.frames ≠ []) :
    s.start path =
      ({ s with recording := true, outputPath := some path,
                sinkOpen := true, fileExists := true,
                Q := s.frames.reverse }, true) := by
  unfold KCW.start
  cases hf : s.frames with
  | nil => exact absurd hf h
  | cons a l => simp [hf]

theorem KCW_runStart_of_preroll (C : Nat) (P : List F) (path : String)
    (hne : P ≠ []) (hlen : P.length ≤ C) :
    KCW.runStart C P path =
      ({ KCW.init C with recording := true, outputPath := some path,
                         sinkOpen := true, fileExists := true,
                         frames := pushAllL C [] P, Q := P }, true) := by
  have h0 := KCW_idle_updates (F := F) C P
  have hrev : (pushAllL C [] P).reverse = P := pushAllL_nil_reverse_of_le hlen
  have hfne : ({ KCW.init (F := F) C with frames := pushAllL C [] P }).frames ≠ [] := by
    intro hcon
    apply hne
    rw [← hrev]
    simp only at hcon
    rw [hcon]
    rfl
  unfold KCW.runStart
  rw [h0, KCW_start_of_ne _ path hfne]
  simp only
  rw [hrev]

theorem KCW_finish_written (s : KCW F) : s.finish.written = s.written ++ s.Q := rfl

theorem KCW_finish_Q (s : KCW F) : s.finish.Q = [] := rfl

theorem KCW_finish_sinkOpen (s : KCW F) : s.finish.sinkOpen = false := rfl

theorem KCW_finish_recording (s : KCW F) : s.finish.recording = false := rfl

theorem KCW_terminate_written (s : KCW F) : s.terminate.written = s.written := rfl

/-- C2: for every pre-roll P (nonempty, within the buffer capacity)
present in the rolling history at start(), and every interleaving of
update() calls and writer-thread iterations while recording, finish()
leaves the sink having received exactly P followed by the updated
frames in order, with nothing left queued and the sink closed — the
synchronous flush in finish() accounts for whatever the writer thread
had not yet drained. -/
theorem kcw_continuous_delivery (C : Nat) (P : List F) (path : String)
    (es : List (KEvent F)) (hne : P ≠ []) (hlen : P.length ≤ C) :
    (KCW.runStart C P path).2 = true
      ∧ (KCW.applyEvents (KCW.runStart C P path).1 es).finish.written
          = P ++ KEvent.updFrames es
      ∧ (KCW.applyEvents (KCW.runStart C P path).1 es).finish.Q = []
      ∧ (KCW.applyEvents (KCW.runStart C P path).1 es).finish.sinkOpen = false := by
  have hinv := KCW_recording_invariant es
      ({ KCW.init (F := F) C with
          recording := true, outputPath := some path,
          sinkOpen := true, fileExists := true,
          frames := pushAllL C [] P, Q := P }) rfl
  rw [KCW_runStart_of_preroll C P path hne hlen]
  refine ⟨rfl, ?_, rfl, rfl⟩
  rw [KCW_finish_written, hinv.1]
  rfl

/-- Witness for C2 at C = 5, P = [1, 2], three recording-phase events
(two updates interleaved with one writer-thread step). -/
theorem kcw_continuous_delivery_witness :
    (KCW.runStart (F := Nat) 5 [1, 2] "clip.avi").2 = true
      ∧ (KCW.applyEvents (KCW.runStart (F := Nat) 5 [1, 2] "clip.avi").1
            [KEvent.upd 3, KEvent.wstep, KEvent.upd 4]).finish.written
          = [1, 2, 3, 4] := by
  have h := kcw_continuous_delivery 5 [1, 2] "clip.avi"
      [KEvent.upd 3, KEvent.wstep, KEvent.upd 4] (by decide) (by decide)
  refine ⟨h.1, ?_⟩
  rw [h.2.1]
  rfl

/-- C7: after terminate(), for every prior run (start with a pre-roll,
then any interleaving of updates and writer steps), the output file is
gone (it did exist just before), the sink is closed, and terminate
wrote none of the frames still pending in the queue: what was written
is exactly the part of P ++ updates the writer thread had already
drained, the pending remainder being discarded unwritten. -/
theorem kcw_terminate_discards (C : Nat) (P : List F) (path : String)
    (es : List (KEvent F)) (hne : P ≠ []) (hlen : P.length ≤ C) :
    (KCW.runStart C P path).2 = true
      ∧ (KCW.applyEvents (KCW.runStart C P path).1 es).fileExists = true
      ∧ (KCW.applyEvents (KCW.runStart C P path).1 es).terminate.fileExists = false
      ∧ (KCW.applyEvents (KCW.runStart C P path).1 es).terminate.sinkOpen = false
      ∧ (KCW.applyEvents (KCW.runStart C P path).1 es).terminate.written
          = (KCW.applyEvents (KCW.runStart C P path).1 es).written
      ∧ (KCW.applyEvents (KCW.runStart C P path).1 es).terminate.written
            ++ (KCW.applyEvents (KCW.runStart C P path).1 es).Q
          = P ++ KEvent.updFrames es := by
  have hinv := KCW_recording_invariant es
      ({ KCW.init (F := F) C with
          recording := true, outputPath := some path,
          sinkOpen := true, fileExists := true,
          frames := pushAllL C [] P, Q := P }) rfl
  rw [KCW_runStart_of_preroll C P path hne hlen]
  refine ⟨rfl, ?_, rfl, rfl, rfl, ?_⟩
  · rw [hinv.2.2.2.1]
  · rw [KCW_terminate_written, hinv.1]
    rfl

/-- Witness for C7 at C = 5, P = [1, 2], one update then termination
with the writer thread never scheduled (so everything is pending). -/
theorem kcw_terminate_discards_witness :
    (KCW.applyEvents (KCW.runStart (F := Nat) 5 [1, 2] "clip.avi").1
          [KEvent.upd 3]).terminate.fileExists = false
      ∧ (KCW.applyEvents (KCW.runStart (F := Nat) 5 [1, 2] "clip.avi").1
            [KEvent.upd 3]).terminate.written = [] := by
  have h := kcw_terminate_discards 5 [1, 2] "clip.avi" [KEvent.upd 3]
      (by decide) (by decide)
  refine ⟨h.2.2.1, ?_⟩
  have h5 := h.2.2.2.2.1
  rw [h5]
  rfl

/-- C8: for every recorder state — hence after every prior sequence of
start()/update() calls and a completed finish() — running any further
events and then finish() a second time writes no additional frame to
the sink, leaves nothing queued, and never re-opens the sink: the
second finish() joins the dead thread, flushes an empty queue and
re-releases the writer, a harmless no-op. -/
theorem kcw_finish_idempotent (s : KCW F) (es2 : List (KEvent F)) :
    (KCW.applyEvents s.finish es2).finish.written = s.finish.written
      ∧ (KCW.applyEvents s.finish es2).sinkOpen = false
      ∧ (KCW.applyEvents s.finish es2).finish.sinkOpen = false
      ∧ (KCW.applyEvents s.finish es2).finish.Q = [] := by
  have hidle := KCW_idle_events es2 s.finish (KCW_finish_recording s)
  refine ⟨?_, ?_, rfl, rfl⟩
  · rw [KCW_finish_written, hidle.1, hidle.2.1, KCW_finish_Q]
    simp [KCW_finish_written, KCW_finish_Q]
  · rw [hidle.2.2.2]
    rfl

/-- C5 (amended): start() on an empty rolling history fails
synchronously — the index error surfaces before the sink is opened, so
no writer exists and no file is created — but the session does not
remain Idle: the method has already set the recording flag and the
output path when it fails, and those mutations persist. -/
theorem kcw_start_empty_history_fails_dirty (C : Nat) (path : String) :
    ((KCW.init (F := F) C).start path).2 = false
      ∧ ((KCW.init (F := F) C).start path).1.recording = true
      ∧ ((KCW.init (F := F) C).start path).1.outputPath = some path
      ∧ ((KCW.init (F := F) C).start path).1.sinkOpen = false
      ∧ ((KCW.init (F := F) C).start path).1.fileExists = false
      ∧ ((KCW.init (F := F) C).start path).1.Q = []
      ∧ ((KCW.init (F := F) C).start path).1.written = [] :=
  ⟨rfl, rfl, rfl, rfl, rfl, rfl, rfl⟩

/-- C5 counterexample: with the default buffer size, start() on a fresh
(empty-history) recorder fails but leaves the recording flag set and
the state visibly changed, so the session does not remain Idle. -/
theorem kcw_start_empty_history_counterexample :
    ((KCW.init (F := Nat) 64).start "out.avi").2 = false
      ∧ ((KCW.init (F := Nat) 64).start "out.avi").1.recording = true
      ∧ ((KCW.init (F := Nat) 64).start "out.avi").1 ≠ KCW.init 64 := by
  refine ⟨rfl, rfl, ?_⟩
  decide

theorem SCW_drain_eq (q : List F) : ∀ acc : List F, SCW.drain acc q = acc ++ q := by
  induction q with
  | nil => intro acc; simp [SCW.drain]
  | cons f rest ih =>
    intro acc
    have h1 : SCW.drain acc (f :: rest) = SCW.drain (acc ++ [f]) rest := rfl
    rw [h1, ih]
    simp

theorem SCW_write_of_ne {q : List F} (h : q ≠ []) :
    SCW.write q = Except.ok q := by
  cases q with
  | nil => exact absurd rfl h
  | cons f rest =>
    show Except.ok (SCW.drain [] (f :: rest)) = Except.ok (f :: rest)
    rw [SCW_drain_eq]
    rfl

theorem SCW_idle_updates (P : List F) :
    ∀ s : SCW F, s.recording = false →
      s.applyUpdates P = { s with frames := pushAll s.bufSize s.frames P } := by
  induction P with
  | nil => intro s hs; simp [SCW.applyUpdates, pushAll]
  | cons p P ih =>
    intro s hs
    have h1 : s.applyUpdates (p :: P) = (s.update p).applyUpdates P := rfl
    have h2 : s.update p = { s with frames := rollPush s.bufSize s.frames p } := by
      simp [SCW.update, hs]
    rw [h1, h2, ih _ (by simp [hs])]
    rfl

theorem SCW_runStart_eq {C L : Nat} {P : List F} (hP : P.length ≤ C) :
    SCW.runStart C L P =
      { bufSize := C, recMaxFrames := L, frames := P, Q := P,
        recording := true, toolong := false } := by
  unfold SCW.runStart
  rw [SCW_idle_updates P (SCW.init C L) rfl]
  have h1 : pushAll C ([] : List F) P = P := pushAll_nil_of_le hP
  simp only [SCW.init] at h1 ⊢
  rw [SCW.start]
  simp [h1]

/-- While recording, as long as the combined length of the queue and
the incoming updates stays within `rec_max_frames + 1`, every update is
appended and the too-long flag stays down. -/
theorem SCW_append_all (U : List F) :
    ∀ s : SCW F, s.recording = true → s.toolong = false →
      s.Q.length + U.length ≤ s.recMaxFrames + 1 →
      (s.applyUpdates U).Q = s.Q ++ U
        ∧ (s.applyUpdates U).toolong = false
        ∧ (s.applyUpdates U).recording = true
        ∧ (s.applyUpdates U).recMaxFrames = s.recMaxFrames := by
  induction U with
  | nil => intro s hs ht _; simp [SCW.applyUpdates, hs, ht]
  | cons u us ih =>
    intro s hs ht hlen
    have hle : ¬ s.recMaxFrames < s.Q.length := by
      simp only [List.length_cons] at hlen
      omega
    have h1 : s.applyUpdates (u :: us) = (s.update u).applyUpdates us := rfl
    have h2 : s.update u =
        { s with frames := rollPush s.bufSize s.frames u, Q := s.Q ++ [u] } := by
      simp [SCW.update, hs, hle]
    have ih2 := ih ({ s with frames := rollPush s.bufSize s.frames u,
                             Q := s.Q ++ [u] }) (by simp [hs]) (by simp [ht])
        (by simp only [List.length_append, List.length_cons, List.length_nil,
              List.length_singleton] at hlen ⊢; omega)
    rw [h1, h2]
    refine ⟨?_, ih2.2.1, ih2.2.2.1, ih2.2.2.2⟩
    rw [ih2.1]
    simp

/-- The too-long flag is never cleared by update. -/
theorem SCW_toolong_mono (U : List F) :
    ∀ s : SCW F, s.toolong = true → (s.applyUpdates U).toolong = true := by
  induction U with
  | nil => intro s hs; simpa [SCW.applyUpdates] using hs
  | cons u us ih =>
    intro s hs
    have h1 : s.applyUpdates (u :: us) = (s.update u).applyUpdates us := rfl
    rw [h1]
    apply ih
    unfold SCW.update
    by_cases hr : s.recording <;> by_cases hq : s.recMaxFrames < s.Q.length <;>
      simp [hr, hq, hs]

/-- While recording, once the queue plus the incoming updates would
exceed `rec_max_frames + 1` frames and at least one update arrives,
the session ends flagged too long. -/
theorem SCW_overflow (U : List F) :
    ∀ s : SCW F, s.recording = true →
      s.recMaxFrames + 2 ≤ s.Q.length + U.length → U ≠ [] →
      (s.applyUpdates U).toolong = true := by
  induction U with
  | nil => intro s _ _ hne; exact absurd rfl hne
  | cons u us ih =>
    intro s hs hlen _
    by_cases ht : s.toolong = true
    · exact SCW_toolong_mono (u :: us) s ht
    · have h1 : s.applyUpdates (u :: us) = (s.update u).applyUpdates us := rfl
      by_cases hq : s.recMaxFrames < s.Q.length
      · have h2 : s.update u =
            { s with frames := rollPush s.bufSize s.frames u, toolong := true } := by
          simp [SCW.update, hs, hq]
        rw [h1, h2]
        exact SCW_toolong_mono us _ rfl
      · have h2 : s.update u =
            { s with frames := rollPush s.bufSize s.frames u, Q := s.Q ++ [u] } := by
          simp [SCW.update, hs, hq]
        have hus : us ≠ [] := by
          intro hcon
          rw [hcon] at hlen
          simp only [List.length_cons, List.length_nil] at hlen
          omega
        rw [h1, h2]
        apply ih _ (by simp [hs]) _ hus
        simp only [List.length_append, List.length_cons,
          List.length_singleton] at hlen ⊢
        omega

theorem SCW_finish_snd_of_not_toolong {s : SCW F} (h : s.toolong = false) :
    s.finish.2 = some (SCW.write s.Q) := by
  simp [SCW.finish, h]

theorem SCW_finish_snd_of_toolong {s : SCW F} (h : s.toolong = true) :
    s.finish.2 = none := by
  simp [SCW.finish, h]

/-- C1 (amended): the bounded recorder is all-or-nothing, but with
effective threshold rec_max_frames + 1, not rec_max_frames: update
checks the queue length before appending, so a clip of exactly L + 1
frames is still written.  For a run start-with-pre-roll-P, updates U,
finish: if the total is nonzero and at most L + 1 the sink receives
exactly P ++ U in order; if no update arrives at all the (nonempty)
pre-roll is written whatever its size; only a total of at least L + 2
with at least one update suppresses output, the sink never opened. -/
theorem scw_allornothing (C L : Nat) (P U : List F) (hP : P.length ≤ C) :
    (0 < P.length + U.length → P.length + U.length ≤ L + 1 →
        ((SCW.runStart C L P).applyUpdates U).finish.2 = some (Except.ok (P ++ U)))
      ∧ (U = [] → 0 < P.length →
        ((SCW.runStart C L P).applyUpdates U).finish.2 = some (Except.ok P))
      ∧ (L + 2 ≤ P.length + U.length → U ≠ [] →
        ((SCW.runStart C L P).applyUpdates U).finish.2 = none) := by
  rw [SCW_runStart_eq hP]
  refine ⟨?_, ?_, ?_⟩
  · intro hpos hle
    have h := SCW_append_all U
        ({ bufSize := C, recMaxFrames := L, frames := P, Q := P,
           recording := true, toolong := false }) rfl rfl (by simpa using hle)
    rw [SCW_finish_snd_of_not_toolong h.2.1, h.1]
    have hne : P ++ U ≠ [] := by
      intro hcon
      have := congrArg List.length hcon
      simp only [List.length_append, List.length_nil] at this
      omega
    rw [SCW_write_of_ne hne]
  · intro hU hpos
    subst hU
    have hne : P ≠ [] := by
      intro hcon
      rw [hcon] at hpos
      simp at hpos
    rw [SCW_finish_snd_of_not_toolong rfl]
    show some (SCW.write P) = _
    rw [SCW_write_of_ne hne]
  · intro hge hne
    have h := SCW_overflow U
        ({ bufSize := C, recMaxFrames := L, frames := P, Q := P,
           recording := true, toolong := false }) rfl (by simpa using hge) hne
    rw [SCW_finish_snd_of_toolong h]

/-- Witness for C1 (amended) at C = 60, L = 4, P = [1, 2],
U = [3, 4, 5]: the total 5 = L + 1 clip is written whole. -/
theorem scw_allornothing_witness :
    ((SCW.runStart (F := Nat) 60 4 [1, 2]).applyUpdates [3, 4, 5]).finish.2
      = some (Except.ok [1, 2, 3, 4, 5]) := by
  have h := scw_allornothing 60 4 [1, 2] [3, 4, 5] (by decide)
  exact h.1 (by decide) (by decide)

/-- C1 counterexample: the claimed scenario L = 4, pre-roll [f1, f2],
updates [f3, f4, f5] (total 5 > L) does produce an output file — the
sink is opened and receives all five frames — contradicting the claim
that no file is written once the total exceeds L. -/
theorem scw_exceeds_L_still_written_counterexample :
    ((SCW.runStart (F := Nat) 60 4 [1, 2]).applyUpdates [3, 4, 5]).finish.2
        = some (Except.ok [1, 2, 3, 4, 5])
      ∧ ((SCW.runStart (F := Nat) 60 4 [1, 2]).applyUpdates [3, 4, 5]).finish.2
          ≠ none
      ∧ 4 < 2 + 3 := by
  refine ⟨rfl, ?_, by decide⟩
  intro hcon
  have h1 : ((SCW.runStart (F := Nat) 60 4 [1, 2]).applyUpdates [3, 4, 5]).finish.2
      = some (Except.ok [1, 2, 3, 4, 5]) := rfl
  rw [hcon] at h1
  exact Option.noConfusion h1

theorem SCW_update_fields (s : SCW F) (f : F) :
    (s.update f).bufSize = s.bufSize
      ∧ (s.update f).recMaxFrames = s.recMaxFrames
      ∧ (s.update f).frames = rollPush s.bufSize s.frames f
      ∧ ((s.update f).Q = s.Q
          ∨ ((s.update f).Q = s.Q ++ [f] ∧ s.Q.length ≤ s.recMaxFrames)) := by
  unfold SCW.update
  by_cases hr : s.recording
  · by_cases hq : s.recMaxFrames < s.Q.length
    · simp [hr, hq]
    · refine ⟨by simp [hr, hq], by simp [hr, hq], by simp [hr, hq], Or.inr ?_⟩
      exact ⟨by simp [hr, hq], by omega⟩
  · simp [hr]

theorem SCW_events_invariant (C L : Nat) (es : List (SEvent F)) :
    ∀ s : SCW F, s.bufSize = C → s.recMaxFrames = L →
      s.frames.length ≤ C → s.Q.length ≤ max (L + 1) C →
      (s.applySEvents es).bufSize = C
        ∧ (s.applySEvents es).recMaxFrames = L
        ∧ (s.applySEvents es).frames.length ≤ C
        ∧ (s.applySEvents es).Q.length ≤ max (L + 1) C := by
  induction es with
  | nil => intro s h1 h2 h3 h4; exact ⟨h1, h2, h3, h4⟩
  | cons e es ih =>
    intro s h1 h2 h3 h4
    have hstep : s.applySEvents (e :: es) = (s.applySEvent e).applySEvents es := rfl
    rw [hstep]
    cases e with
    | strt =>
      apply ih
      · simpa [SCW.applySEvent, SCW.start] using h1
      · simpa [SCW.applySEvent, SCW.start] using h2
      · simpa [SCW.applySEvent, SCW.start] using h3
      · show s.frames.length ≤ max (L + 1) C
        exact le_trans h3 (le_max_right _ _)
    | upd f =>
      have hfr : (rollPush s.bufSize s.frames f).length ≤ C := by
        rw [h1]
        exact length_rollPush h3 f
      obtain ⟨hb, hm, hf, hQ⟩ := SCW_update_fields s f
      apply ih
      · rw [show (s.applySEvent (SEvent.upd f)) = s.update f from rfl, hb, h1]
      · rw [show (s.applySEvent (SEvent.upd f)) = s.update f from rfl, hm, h2]
      · rw [show (s.applySEvent (SEvent.upd f)) = s.update f from rfl, hf]
        exact hfr
      · rw [show (s.applySEvent (SEvent.upd f)) = s.update f from rfl]
        rcases hQ with hQ | ⟨hQ, hle⟩
        · rw [hQ]; exact h4
        · rw [hQ]
          simp only [List.length_append, List.length_singleton]
          rw [h2] at hle
          exact le_trans (by omega) (le_max_left (L + 1) C)

/-- C9 (amended): after any sequence of start() and update() calls on a
fresh bounded recorder, the pending queue holds at most
max (rec_max_frames + 1) bufSize frames.  The rec_max_frames + 1 part
is the claimed one-beyond-the-ceiling slack of the length check done
before appending; the bound degrades to bufSize because start() seeds
the queue with the whole rolling history, which may already be longer
than rec_max_frames + 1. -/
theorem scw_pending_bound (C L : Nat) (es : List (SEvent F)) :
    ((SCW.init (F := F) C L).applySEvents es).Q.length ≤ max (L + 1) C :=
  (SCW_events_invariant C L es (SCW.init C L) rfl rfl
    (by simp [SCW.init]) (by simp [SCW.init])).2.2.2

/-- C9 counterexample: with bufSize = 3 and rec_max_frames = 1,
three idle updates followed by start() seed the pending queue with 3
frames — more than rec_max_frames + 1 = 2, refuting the claimed
invariant. -/
theorem scw_pending_exceeds_counterexample :
    ((SCW.init (F := Nat) 3 1).applySEvents
        [SEvent.upd 7, SEvent.upd 8, SEvent.upd 9, SEvent.strt]).Q.length = 3
      ∧ ¬ (3 ≤ 1 + 1) := by
  refine ⟨rfl, by decide⟩

/-- C10: starting the bounded recorder on an empty rolling history and
finishing with no intervening update spawns a write step over an empty
pending sequence: indexing its first element for the sink dimensions
fails with an index error, before the writer is ever constructed — so
the sink is never opened, there is no empty-clip output and no
graceful error path. -/
theorem scw_empty_history_index_error (C L : Nat) :
    ((SCW.init (F := F) C L).start).finish.2 = some (Except.error ())
      ∧ ((SCW.init (F := F) C L).start).finish.1.recording = false :=
  ⟨rfl, rfl⟩

/-- C3: pushing C + k frames one at a time through either recorder's
rolling history leaves exactly the last C frames in arrival order —
directly for the append-right deque of ShortClipWriter, and reading
the append-left deque of KeyClipWriter newest-to-oldest reversed — and
no intermediate prefix ever holds more than C frames. -/
theorem rolling_history_last_C (C k i : Nat) (xs : List F)
    (h : xs.length = C + k) :
    pushAll C [] xs = xs.drop k
      ∧ (pushAllL C [] xs).reverse = xs.drop k
      ∧ (pushAll C [] (xs.take i)).length ≤ C
      ∧ (pushAllL C [] (xs.take i)).length ≤ C := by
  have hdrop : lastN C xs = xs.drop k := by
    unfold lastN
    rw [h]
    congr 1
    omega
  have h1 : pushAll C ([] : List F) xs = lastN C xs := by
    simpa using pushAll_eq_lastN (C := C) xs (by simp)
  have h2 : (pushAllL C ([] : List F) xs).reverse = lastN C xs := by
    rw [pushAllL_reverse xs (by simp)]
    simpa using pushAll_eq_lastN (C := C) xs (by simp)
  have h4 : (pushAllL C ([] : List F) (xs.take i)).length ≤ C := by
    have hrev := pushAllL_reverse (C := C) (xs.take i)
        (h := ([] : List F)) (by simp)
    have := length_pushAll (C := C) (h := ([] : List F)) (by simp) (xs.take i)
    calc (pushAllL C ([] : List F) (xs.take i)).length
        = (pushAllL C ([] : List F) (xs.take i)).reverse.length := by simp
      _ = (pushAll C (([] : List F)).reverse (xs.take i)).length := by rw [hrev]
      _ ≤ C := by simpa using this
  exact ⟨h1.trans hdrop, h2.trans hdrop,
    length_pushAll (by simp) _, h4⟩

/-- Witness for C3 at C = 2, k = 1, xs = [1, 2, 3], intermediate
point i = 2. -/
theorem rolling_history_last_C_witness :
    pushAll 2 [] [1, 2, 3] = [2, 3]
      ∧ (pushAllL 2 [] [1, 2, 3]).reverse = [2, 3]
      ∧ (pushAll 2 [] ([1, 2, 3].take 2)).length ≤ 2
      ∧ (pushAllL 2 [] ([1, 2, 3].take 2)).length ≤ 2 := by
  have h := rolling_history_last_C 2 1 2 [1, 2, 3] (by decide)
  exact ⟨h.1, h.2.1, h.2.2.1, h.2.2.2⟩

theorem camRead_snd (src : List (Option F)) : (camRead src).2 = src.drop 1 := by
  cases src <;> rfl

theorem VS_cycles_spec : ∀ (n : Nat) (s : VS F), s.stopped = false →
    n ≤ s.src.length →
    (s.cycles n).Q = s.Q ++ s.src.take n
      ∧ (s.cycles n).src = s.src.drop n
      ∧ (s.cycles n).stopped = false
      ∧ (s.cycles n).frame = s.frame := by
  intro n
  induction n with
  | zero => intro s hs _; simp [VS.cycles, hs]
  | succ n ih =>
    intro s hs hlen
    cases hsrc : s.src with
    | nil =>
      rw [hsrc] at hlen
      simp at hlen
    | cons r rs =>
      have hcy : s.cycle = { s with src := rs, Q := s.Q ++ [r] } := by
        unfold VS.cycle
        rw [hsrc]
        simp [hs, camRead]
      have hstep : s.cycles (n + 1) = (s.cycle).cycles n := rfl
      have ih2 := ih ({ s with src := rs, Q := s.Q ++ [r] }) (by simp [hs])
          (by rw [hsrc] at hlen; simpa using Nat.le_of_succ_le_succ hlen)
      rw [hstep, hcy]
      refine ⟨?_, ?_, ih2.2.2.1, ih2.2.2.2⟩
      · rw [ih2.1]
        simp
      · rw [ih2.2.1]
        simp

/-- C6 (amended): an iteration of the capture-loop in which the source
reports no frame does NOT skip the cycle: the loop enqueues the frame
component of every read result unconditionally, so a failed read
enqueues None into the hand-off channel (with no retry and no error
surfaced), and read() can later yield that None.  After n iterations
the queue holds exactly the first n post-priming results, failures
included. -/
theorem vs_cycle_enqueues_failures (src : List (Option F)) (n : Nat)
    (h : n + 1 ≤ src.length) :
    ((VS.init src).cycles n).Q = (src.drop 1).take n
      ∧ ((VS.init src).cycles n).src = src.drop (n + 1) := by
  have hsrc : (VS.init src).src = src.drop 1 := camRead_snd src
  have hspec := VS_cycles_spec n (VS.init src) rfl
      (by rw [hsrc]; simp only [List.length_drop]; omega)
  refine ⟨?_, ?_⟩
  · rw [hspec.1, hsrc]
    rfl
  · rw [hspec.2.1, hsrc, List.drop_drop, Nat.add_comm 1 n]

/-- Witness for C6 (amended): source results [some 0, none, some 1];
after the priming read and two loop iterations the queue holds
[none, some 1] — the failed read was enqueued as None, not skipped. -/
theorem vs_cycle_enqueues_failures_witness :
    ((VS.init (F := Nat) [some 0, none, some 1]).cycles 2).Q = [none, some 1]
      ∧ ((VS.init (F := Nat) [some 0, none, some 1]).cycles 2).src = [] := by
  have h := vs_cycle_enqueues_failures (F := Nat) [some 0, none, some 1] 2
      (by decide)
  exact ⟨h.1, h.2⟩

/-- C6 counterexample: with source results [some 0, none], the failing
second read is enqueued — the queue after that cycle is [none], not
empty — and read() returns that None, a value originating from a
failed capture. -/
theorem vs_failed_read_enqueued_counterexample :
    ((VS.init (F := Nat) [some 0, none]).cycles 1).Q = [none]
      ∧ ((VS.init (F := Nat) [some 0, none]).cycles 1).Q ≠ []
      ∧ (((VS.init (F := Nat) [some 0, none]).cycles 1).readQ.map Prod.fst)
          = some none :=
  ⟨rfl, by decide, rfl⟩

/-- C4 (amended): with a source that always succeeds, the decoupler is
FIFO with no reordering, duplication or further loss, but it drops the
first produced frame: the constructor's priming read stores it in
self.frame and never enqueues it, so successive read() calls return
frames 2, 3, ... of the production order. -/
theorem vs_fifo_after_priming (sf : List F) (n : Nat)
    (h : n + 1 ≤ sf.length) :
    ((VS.init (sf.map some)).cycles n).Q = ((sf.drop 1).take n).map some
      ∧ ((VS.init (sf.map some)).cycles n).src = (sf.drop (n + 1)).map some
      ∧ (VS.init (sf.map some)).frame = sf.head? := by
  have h2 := vs_cycle_enqueues_failures (sf.map some) n (by simpa using h)
  refine ⟨?_, ?_, ?_⟩
  · rw [h2.1, ← List.map_drop, ← List.map_take]
  · rw [h2.2, ← List.map_drop]
  · cases sf <;> rfl

/-- Witness for C4 (amended): producing [10, 20, 30] and running two
loop iterations leaves [some 20, some 30] queued, frame 10 having been
consumed by the constructor. -/
theorem vs_fifo_after_priming_witness :
    ((VS.init (F := Nat) ([10, 20, 30].map some)).cycles 2).Q
        = [some 20, some 30]
      ∧ (VS.init (F := Nat) ([10, 20, 30].map some)).frame = some 10 := by
  have h := vs_fifo_after_priming [10, 20, 30] 2 (by decide)
  exact ⟨h.1, h.2.2⟩

/-- C4 counterexample: the source successfully produces exactly
[10, 20]; after construction and one loop iteration the source is
exhausted, yet the queue holds only [some 20] and the first read()
returns frame 20 — frame 10, the first frame produced, is never
returned, contradicting first-in-first-out delivery with no drops. -/
theorem vs_first_frame_dropped_counterexample :
    ((VS.init (F := Nat) ([10, 20].map some)).cycles 1).Q = [some 20]
      ∧ (((VS.init (F := Nat) ([10, 20].map some)).cycles 1).readQ.map
            Prod.fst) = some (some 20)
      ∧ ((VS.init (F := Nat) ([10, 20].map some)).cycles 1).src = []
      ∧ some (20 : Nat) ≠ some 10 :=
  ⟨rfl, rfl, rfl, by decide⟩

end Capture
